import Mathlib

/-!
Shallow embedding of the `nfc-service-rust` repository.

Conventions:
* Rust `u8` bytes are modelled as `Nat`; an explicit `% 256` appears wherever
  the source performs an `as u8` truncation.
* Rust `Vec<u8>` / `&[u8]` are modelled as `List Nat`.
* Rust `String` / `&str` values are modelled by their UTF-8 byte sequences
  (`List Nat`); `str::from_utf8` is modelled by the executable validator
  `utf8Valid` below (it succeeds exactly on well-formed UTF-8 byte sequences
  and returns the same bytes).
* Fallible Rust functions returning `Result<T, String>` become
  `Except String T`; a Rust panic (out-of-bounds index, `.unwrap()` on `Err`)
  is modelled by `Option`, with `none` standing for the panic.
-/

namespace NfcRust

/-- Is `b` a UTF-8 continuation byte (`0x80 ..= 0xBF`)? -/
def utf8Cont (b : Nat) : Bool := 0x80 ≤ b && b ≤ 0xBF

/-- Executable UTF-8 well-formedness check, following the byte-range table of
RFC 3629 (this is exactly the condition under which Rust's `str::from_utf8`
returns `Ok`). -/
def utf8Valid : List Nat → Bool
  | [] => true
  | b :: rest =>
    if b < 0x80 then utf8Valid rest
    else if 0xC2 ≤ b && b ≤ 0xDF then
      match rest with
      | c1 :: r => utf8Cont c1 && utf8Valid r
      | [] => false
    else if b = 0xE0 then
      match rest with
      | c1 :: c2 :: r => (0xA0 ≤ c1 && c1 ≤ 0xBF) && utf8Cont c2 && utf8Valid r
      | _ => false
    else if (0xE1 ≤ b && b ≤ 0xEC) || b = 0xEE || b = 0xEF then
      match rest with
      | c1 :: c2 :: r => utf8Cont c1 && utf8Cont c2 && utf8Valid r
      | _ => false
    else if b = 0xED then
      match rest with
      | c1 :: c2 :: r => (0x80 ≤ c1 && c1 ≤ 0x9F) && utf8Cont c2 && utf8Valid r
      | _ => false
    else if b = 0xF0 then
      match rest with
      | c1 :: c2 :: c3 :: r =>
        (0x90 ≤ c1 && c1 ≤ 0xBF) && utf8Cont c2 && utf8Cont c3 && utf8Valid r
      | _ => false
    else if 0xF1 ≤ b && b ≤ 0xF3 then
      match rest with
      | c1 :: c2 :: c3 :: r => utf8Cont c1 && utf8Cont c2 && utf8Cont c3 && utf8Valid r
      | _ => false
    else if b = 0xF4 then
      match rest with
      | c1 :: c2 :: c3 :: r =>
        (0x80 ≤ c1 && c1 ≤ 0x8F) && utf8Cont c2 && utf8Cont c3 && utf8Valid r
      | _ => false
    else false

/-! ## `src/types.rs` -/

/-- `types.rs` `NDEFType`. -/
inductive NDEFType
  | TEXT
  | URL
  | APP
deriving DecidableEq

/-- `types.rs` `NdefRecord`. -/
structure NdefRecord where
  tnf : Nat
  record_type : List Nat
  payload : List Nat
  id : Option (List Nat)
deriving DecidableEq

/-- `types.rs` `NdefPayload` (content modelled as its UTF-8 bytes). -/
structure NdefPayload where
  data_type : NDEFType
  content : List Nat
deriving DecidableEq

/-! ## `src/ndef.rs` -/

/-- `ndef.rs` `create_text_record_payload`: status byte (= language length 2),
then `"en"`, then the text bytes. -/
def create_text_record_payload (text : List Nat) : List Nat :=
  2 :: 0x65 :: 0x6E :: text

/-- `ndef.rs` `encode_ndef_message`: header `0xD1`, type length `1`,
payload length truncated to a byte, type `"T"`, then the payload. -/
def encode_ndef_message (text : List Nat) : List Nat :=
  let payload := create_text_record_payload text
  0xD1 :: 1 :: (payload.length % 256) :: 0x54 :: payload

/-- Payload construction of `ndef.rs` `encode_single_record_ndef`, step 2. -/
def record_payload (content : List Nat) : NDEFType → List Nat
  | .TEXT => 2 :: 0x65 :: 0x6E :: content
  | .URL => 0 :: content
  | .APP => content

/-- The TNF value chosen in step 1 of `encode_single_record_ndef`. -/
def record_tnf : NDEFType → Nat
  | .TEXT => 0x01
  | .URL => 0x01
  | .APP => 0x04

/-- The type string chosen in step 1 of `encode_single_record_ndef`: the byte
sequences of `"T"`, `"U"` and `"android.com:pkg"`. -/
def record_type_string : NDEFType → List Nat
  | .TEXT => [0x54]
  | .URL => [0x55]
  | .APP => [0x61, 0x6E, 0x64, 0x72, 0x6F, 0x69, 0x64, 0x2E, 0x63, 0x6F,
             0x6D, 0x3A, 0x70, 0x6B, 0x67]

/-- The header byte built in step 3 of `encode_single_record_ndef`:
MB, ME, then the unconditional SR bit, over the TNF bits. -/
def record_header (data_type : NDEFType) (mb me : Bool) : Nat :=
  let header := record_tnf data_type
  let header := if mb then header ||| 0x80 else header
  let header := if me then header ||| 0x40 else header
  header ||| 0x10

/-- `ndef.rs` `encode_single_record_ndef`. -/
def encode_single_record_ndef (content : List Nat) (data_type : NDEFType)
    (mb me : Bool) : List Nat :=
  let type_string := record_type_string data_type
  let payload := record_payload content data_type
  record_header data_type mb me :: (type_string.length % 256) ::
    (payload.length % 256) :: (type_string ++ payload)

/-- `ndef.rs` `wrap_in_tlv`: tag `0x03`, a single length byte (`0xFF` when the
message is 255 bytes or longer — the source pushes nothing after the `0xFF`),
the message, terminator `0xFE`. -/
def wrap_in_tlv (ndef_bytes : List Nat) : List Nat :=
  3 :: ((if ndef_bytes.length < 255 then [ndef_bytes.length % 256] else [0xFF])
    ++ ndef_bytes ++ [0xFE])

/-- `ndef.rs` `decode_ndef_text`. -/
def decode_ndef_text (buffer : List Nat) : Except String (List Nat) :=
  match buffer.findIdx? (fun b => b == 3) with
  | none => .error "No NDEF TLV found"
  | some start =>
    if start + 1 ≥ buffer.length then .error "Invalid buffer length"
    else
      let len := buffer.getD (start + 1) 0
      let start_data := start + 2
      if start_data + len > buffer.length then .error "Incomplete data"
      else
        let ndef_msg := (buffer.drop start_data).take len
        if ndef_msg.isEmpty then .error "Empty NDEF"
        else if ndef_msg.length < 3 then .error "Invalid NDEF Header"
        else
          let type_len := ndef_msg.getD 1 0
          let payload_len := ndef_msg.getD 2 0
          let payload_start := 3 + type_len
          if payload_start + payload_len > ndef_msg.length then
            .error "Invalid payload structure"
          else
            let payload := (ndef_msg.drop payload_start).take payload_len
            if payload.isEmpty then .error "Empty Payload"
            else
              let status_byte := payload.getD 0 0
              let lang_len := status_byte &&& 0x3F
              let text_start := 1 + lang_len
              if text_start > payload.length then .error "Invalid Text Payload"
              else
                let text_bytes := payload.drop text_start
                if utf8Valid text_bytes then .ok text_bytes
                else .error "UTF-8 Decode Error"

/-- Rust slice `data[a .. a + len]`: panics (`none`) when the end of the range
exceeds the buffer length. -/
def sliceQ (data : List Nat) (a len : Nat) : Option (List Nat) :=
  if a + len ≤ data.length then some ((data.drop a).take len) else none

/-- One iteration of the `while` loop of `ndef.rs` `parse_ndef_records`,
reading the record that starts at `cursor`.  Every unchecked Rust index
(`data[cursor]`, `data[cursor .. cursor + k]`) is modelled by `List.get?` /
`sliceQ`, so an out-of-bounds access — a panic in the source — yields `none`.
On success it returns the parsed record, the ME flag, and the new cursor. -/
def parse_one_record (data : List Nat) (cursor : Nat) :
    Option (NdefRecord × Bool × Nat) :=
  match data.get? cursor with
  | none => none
  | some header =>
    match data.get? (cursor + 1) with
    | none => none
    | some type_len =>
      -- payload length: 1 byte if the SR flag is set, else 4 bytes big-endian.
      -- The second component counts the bytes this step consumed (1 or 4).
      match
        (if header &&& 0x10 ≠ 0 then
          match data.get? (cursor + 2) with
          | none => none
          | some l => some (l, 1)
        else
          match data.get? (cursor + 2), data.get? (cursor + 3),
              data.get? (cursor + 4), data.get? (cursor + 5) with
          | some a, some b, some c, some d =>
            some ((a <<< 24) ||| (b <<< 16) ||| (c <<< 8) ||| d, 4)
          | _, _, _, _ => none : Option (Nat × Nat)) with
      | none => none
      | some (payload_len, plB) =>
        -- ID length byte (consumed only when the IL flag is set)
        match
          (if header &&& 0x08 ≠ 0 then
            match data.get? (cursor + 2 + plB) with
            | none => none
            | some l => some (l, 1)
          else some (0, 0) : Option (Nat × Nat)) with
        | none => none
        | some (id_len, idB) =>
          match sliceQ data (cursor + 2 + plB + idB) type_len with
          | none => none
          | some record_type =>
            match
              (if header &&& 0x08 ≠ 0 then
                match sliceQ data (cursor + 2 + plB + idB + type_len) id_len with
                | none => none
                | some v => some (some v)
              else some none : Option (Option (List Nat))) with
            | none => none
            | some id =>
              match sliceQ data (cursor + 2 + plB + idB + type_len + id_len)
                  payload_len with
              | none => none
              | some payload =>
                let tnf := header &&& 0x07
                let final_payload :=
                  if tnf = 1 ∧ record_type = [0x54] then
                    if payload.isEmpty then payload
                    else
                      let status_byte := payload.getD 0 0
                      let lang_code_len := status_byte &&& 0x3F
                      let header_size := 1 + lang_code_len
                      if header_size < payload.length then
                        payload.drop header_size
                      else payload
                  else payload
                some (⟨tnf, record_type, final_payload, id⟩,
                      header &&& 0x40 ≠ 0,
                      cursor + (2 + plB + idB + type_len + id_len + payload_len))

/-- A successful `parse_one_record` always advances the cursor (it consumes
at least the header, type-length and payload-length bytes), so the guard used
for termination in `parse_records_loop` below never cuts an execution short:
the model follows the Rust loop exactly. -/
theorem parse_one_record_advances (data : List Nat) (cursor : Nat)
    (r : NdefRecord) (me : Bool) (cursor' : Nat)
    (h : parse_one_record data cursor = some (r, me, cursor')) :
    cursor < cursor' := by
  simp only [parse_one_record] at h
  repeat' split at h
  all_goals simp at h
  all_goals omega

/-- The `while cursor < data.len()` loop of `ndef.rs` `parse_ndef_records`. -/
def parse_records_loop (data : List Nat) (cursor : Nat)
    (acc : List NdefRecord) : Option (List NdefRecord) :=
  if _h : cursor < data.length then
    match parse_one_record data cursor with
    | none => none
    | some (rec, is_me, cursor') =>
      if is_me then some (acc ++ [rec])
      else if _h2 : cursor < cursor' then
        parse_records_loop data cursor' (acc ++ [rec])
      else none  -- unreachable: see `parse_one_record_advances`
  else some acc
termination_by data.length - cursor

/-- `ndef.rs` `parse_ndef_records`.  The Rust function's only `return` is
`Ok(records)`; its `String` error type is never produced, so the result is
modelled as `Option (List NdefRecord)` with `none` standing for a panic. -/
def parse_ndef_records (data : List Nat) : Option (List NdefRecord) :=
  parse_records_loop data 0 []

/-! ## `src/cards.rs` -/

/-- `cards.rs` `get_mifare_data_blocks`: blocks `sector*4 + b` for
`sector ∈ [1, 15]`, `b ∈ [0, 2]`. -/
def get_mifare_data_blocks : List Nat :=
  (List.range' 1 15).flatMap fun sector =>
    (List.range 3).map fun block_in_sector => sector * 4 + block_in_sector

/-- Abstraction of a connected MIFARE card (plus reader) as seen through
`apdu.rs` during a read:
* `auth b` — whether the key-trial loop at the sector boundary `b` succeeds
  for some key of `COMMON_KEYS` with key type A or B (the individual
  `load_key` / `authenticate` transmissions are collapsed into this single
  outcome, which is all `read_mifare` inspects);
* `read b` — the result of `apdu::read_binary(card, b, 16)`: `some data`
  for `Ok(data)`, `none` for `Err(_)`. -/
structure CardM where
  auth : Nat → Bool
  read : Nat → Option (List Nat)

/-- The `for &block in data_blocks` loop of `cards.rs` `read_mifare`,
carrying the accumulated buffer and the discovered NDEF length. -/
def read_mifare_loop (c : CardM) : List Nat → List Nat → Option Nat → List Nat
  | [], full_data, _ => full_data
  | block :: rest, full_data, ndef_length =>
    if block % 4 = 0 ∧ ¬ c.auth block then full_data  -- auth failed: break
    else
      match c.read block with
      | none => full_data  -- read error: break
      | some data =>
        let full_data := full_data ++ data
        let ndef_length :=
          if ndef_length.isNone then
            match full_data.findIdx? (fun b => b == 3) with
            | some pos =>
              if pos + 1 < full_data.length then
                some (full_data.getD (pos + 1) 0)
              else none
            | none => none
          else ndef_length
        match ndef_length with
        | some len =>
          if len + 3 ≤ full_data.length then full_data
          else read_mifare_loop c rest full_data ndef_length
        | none => read_mifare_loop c rest full_data ndef_length

/-- `cards.rs` `read_mifare`. -/
def read_mifare (c : CardM) : Except String (List Nat) :=
  let full_data := read_mifare_loop c get_mifare_data_blocks [] none
  if full_data.isEmpty then .error "No data could be read from the card."
  else .ok full_data

/-- Abstraction of a connected MIFARE card during a write:
* `auth b` — whether the key-trial loop (key type A only) at sector boundary
  `b` succeeds for some key of `COMMON_KEYS`;
* `write b chunk` — whether `apdu::update_binary(card, b, chunk)` returns
  `Ok`. -/
structure WCardM where
  auth : Nat → Bool
  write : Nat → List Nat → Bool

/-- The 16-byte zero-padded chunk written by one iteration of
`cards.rs` `write_mifare` at a given offset (Rust: `copy_len =
min(16, bytes_left)`, `chunk = data[offset..offset+copy_len]` padded with
zeros to 16 bytes). -/
def write_chunk (data : List Nat) (offset : Nat) : List Nat :=
  (data.drop offset).take (min 16 (data.length - offset)) ++
    List.replicate (16 - min 16 (data.length - offset)) 0

/-- The `while offset < data.len()` loop of `cards.rs` `write_mifare`.
On success it returns the list of `update_binary` calls issued, as
`(block, chunk)` pairs in order. -/
def write_mifare_loop (c : WCardM) (data : List Nat) (offset current_block : Nat) :
    Except String (List (Nat × List Nat)) :=
  if offset < data.length then
    if _hskip : (current_block + 1) % 4 = 0 then
      write_mifare_loop c data offset (current_block + 1)  -- skip trailer
    else if current_block % 4 = 0 ∧ ¬ c.auth current_block then
      .error "Write Auth Failed"
    else
      if c.write current_block (write_chunk data offset) then
        match write_mifare_loop c data (offset + 16) (current_block + 1) with
        | .ok calls => .ok ((current_block, write_chunk data offset) :: calls)
        | .error e => .error e
      else .error "Write Failed"
  else .ok []
termination_by (data.length - offset) * 2 +
  (if (current_block + 1) % 4 = 0 then 1 else 0)
decreasing_by
  all_goals simp_wf
  all_goals repeat' split
  all_goals omega

/-- `cards.rs` `write_mifare`, starting at `offset = 0`, `current_block = 4`.
Returns the sequence of issued block writes on success. -/
def write_mifare (c : WCardM) (data : List Nat) :
    Except String (List (Nat × List Nat)) :=
  write_mifare_loop c data 0 4

/-! ## `src/nfc_service.rs` -/

/-- `nfc_service.rs` `ServiceState` (the `last_data_read` string is modelled
as its UTF-8 bytes). -/
structure ServiceState where
  reader_connected : Bool
  card_present : Bool
  last_data_read : Option (List Nat)
deriving DecidableEq

/-- `ServiceState::new()`. -/
def ServiceState.new : ServiceState :=
  { reader_connected := false, card_present := false, last_data_read := none }

/-- `types.rs` `OutgoingMessage` (strings as UTF-8 bytes; the payloads of the
card-status and error messages are not inspected by any claim, so only the
data of `DATA_READ_SUCCESS` is carried). -/
inductive OutMsg
  | READER_STATUS (success : Bool)
  | CARD_STATUS (success : Bool)
  | DATA_READ_SUCCESS (data : List Nat)
  | DATA_READ_ERROR
  | DATA_WRITE_SUCCESS
  | DATA_WRITE_ERROR
  | READER_ERROR
deriving DecidableEq

/-- The events that drive the reader thread's `run` loop, abstracting the
PC/SC stimuli.  Each constructor corresponds to one place in
`nfc_service.rs::run` where `state_cache` can be mutated:
* `estFail` — `Context::establish` fails at the top of the outer loop;
* `scan connected` — the initial enumeration after a context is established
  (`connected` = "the reader list is non-empty");
* `pnp connected` — a PnP hardware-change event with re-enumeration result
  `connected`;
* `cmdCheck` / `cmdWrite` — a drained `CheckReaderStatus` / `Write` command
  (neither touches `state_cache`; the write outcome event is not modelled
  here, see `handle_command`);
* `insert decoded` — a card-inserted edge; `decoded = some text` models
  `connect`, the read and `decode_ndef_text` all succeeding with `text`,
  while `none` collapses the connect/read/decode failure cases, which leave
  `last_data_read` untouched and emit only error events;
* `remove` — a card-removed edge;
* `recover` — the inner loop broke (`ServiceStopped` / `NoService`) and the
  code after "End Inner Loop" runs before the outer loop restarts. -/
inductive Step
  | estFail
  | scan (connected : Bool)
  | pnp (connected : Bool)
  | cmdCheck
  | cmdWrite
  | insert (decoded : Option (List Nat))
  | remove
  | recover
deriving DecidableEq

/-- One `state_cache` transition of `nfc_service.rs::run`, together with the
list of messages sent on `tx` (in order) whose emission depends on the state.
Mirrors the source: insertion is handled only when `card_present` is false
(`run`, CASE A) and `handle_card_insertion` updates `last_data_read` and
emits `DATA_READ_SUCCESS` only when the decoded text differs from it;
removal (CASE B) clears `last_data_read`; the recovery tail of the outer
loop clears `reader_connected` and `card_present` but keeps
`last_data_read`. -/
def stepE (st : ServiceState) : Step → ServiceState × List OutMsg
  | .estFail =>
    if st.reader_connected then
      ({ st with reader_connected := false }, [.READER_ERROR])
    else (st, [])
  | .scan connected =>
    if connected then
      ({ st with reader_connected := true }, [.READER_STATUS true])
    else ({ st with reader_connected := false }, [])
  | .pnp connected =>
    if connected ≠ st.reader_connected then
      ({ st with reader_connected := connected }, [.READER_STATUS connected])
    else (st, [])
  | .cmdCheck => (st, [.READER_STATUS st.reader_connected])
  | .cmdWrite => (st, [])
  | .insert decoded =>
    if st.card_present then (st, [])
    else
      let st := { st with card_present := true }
      match decoded with
      | some text =>
        if st.last_data_read = some text then
          (st, [.CARD_STATUS true])
        else
          ({ st with last_data_read := some text },
           [.CARD_STATUS true, .DATA_READ_SUCCESS text])
      | none => (st, [.CARD_STATUS true, .DATA_READ_ERROR])
  | .remove =>
    if st.card_present then
      ({ st with card_present := false, last_data_read := none },
       [.CARD_STATUS false])
    else (st, [])
  | .recover =>
    ({ st with reader_connected := false, card_present := false }, [])

/-- The state component of `stepE`. -/
def step (st : ServiceState) (e : Step) : ServiceState := (stepE st e).1

/-- The service state reached from `ServiceState::new()` after a sequence of
steps. -/
def runSteps (es : List Step) : ServiceState :=
  es.foldl step ServiceState.new

/-- `types.rs` `NfcCommand` (the `Write` payload string is kept abstract as
a `String`). -/
inductive NfcCommand
  | Write (payloads : String)
  | CheckReaderStatus

/-- The command-drain arm of `nfc_service.rs::run` (step 3 of the inner
loop), for a single received command.  It is parametrised by
* `parse` — the outcome of `serde_json::from_str::<Vec<NdefPayload>>` on the
  `payloads` string (`none` for a parse error, which the source hits with
  `.unwrap()`), and
* `write` — the outcome of `handle_write_command_v2`'s attempt, which sends
  `DATA_WRITE_SUCCESS` on `Ok` and `DATA_WRITE_ERROR` on `Err`.
A result of `none` models a panic of the reader thread. -/
def handle_command (parse : String → Option (List NdefPayload))
    (write : List NdefPayload → Except String Unit)
    (st : ServiceState) : NfcCommand → Option (ServiceState × List OutMsg)
  | .Write payloads =>
    match parse payloads with
    | none => none  -- `serde_json::from_str(&payloads).unwrap()` panics
    | some vec_payload =>
      match write vec_payload with
      | .ok _ => some (st, [.DATA_WRITE_SUCCESS])
      | .error _ => some (st, [.DATA_WRITE_ERROR])
  | .CheckReaderStatus => some (st, [.READER_STATUS st.reader_connected])

/-! ## Claims -/

/-- The TLV wrapper as claim C4 describes it — length field `0xFF` followed
by the big-endian 16-bit length when the message is 255 bytes or longer.
Stated from the claim's words, for comparison with `wrap_in_tlv`. -/
def wrap_in_tlv_claimed (x : List Nat) : List Nat :=
  if x.length < 255 then 3 :: x.length :: (x ++ [0xFE])
  else 3 :: 0xFF :: (x.length / 256) :: (x.length % 256) :: (x ++ [0xFE])

/-- Bit arithmetic helper: `or`-ing a mask in guarantees the mask under
`and`. -/
theorem or_and_mask (x y : Nat) : (x ||| y) &&& y = y := by
  apply Nat.eq_of_testBit_eq
  intro i
  simp only [Nat.testBit_and, Nat.testBit_or]
  cases hx : x.testBit i <;> cases hy : y.testBit i <;> rfl

/-- Claim C2 (code_bug): a `Write` command whose `payloads` string fails to
parse as a JSON array of payloads makes the reader thread's command handler
panic (`serde_json::from_str(&payloads).unwrap()`), modelled as `none` —
contradicting the claim that every error in a command attempt is converted
into an outbound event or dropped. -/
theorem write_command_bad_json_panics
    (parse : String → Option (List NdefPayload))
    (write : List NdefPayload → Except String Unit) (st : ServiceState)
    (p : String) (h : parse p = none) :
    handle_command parse write st (.Write p) = none := by
  simp [handle_command, h]

/-- Witness for `write_command_bad_json_panics` at a concrete non-JSON
payload string and a parser that rejects it. -/
theorem write_command_bad_json_panics_witness :
    (fun _ : String => (none : Option (List NdefPayload))) "not json" = none ∧
    handle_command (fun _ => none) (fun _ => .ok ()) ServiceState.new
      (.Write "not json") = none :=
  ⟨rfl, write_command_bad_json_panics _ _ _ _ rfl⟩

/-- Claim C4, counterexample: on a 255-byte message the source emits only the
single byte `0xFF` as length field (no 16-bit length follows), so the output
differs from the claimed long form — it is two bytes shorter. -/
theorem wrap_in_tlv_long_form_counterexample :
    wrap_in_tlv (List.replicate 255 0) ≠
      wrap_in_tlv_claimed (List.replicate 255 0) := by
  intro h
  have hlen := congrArg List.length h
  simp only [wrap_in_tlv, wrap_in_tlv_claimed, List.length_replicate,
    List.length_cons, List.length_append, List.length_singleton] at hlen
  norm_num at hlen

/-- Claim C4, amended: `wrap_in_tlv x` always starts with the tag byte `0x03`
and ends with the terminator `0xFE`; its length field is the single byte
`x.length` when `x.length < 255`, and otherwise the single byte `0xFF` with
no extended-length bytes after it. -/
theorem wrap_in_tlv_amended (x : List Nat) :
    (wrap_in_tlv x).head? = some 0x03 ∧
    (wrap_in_tlv x).getLast? = some 0xFE ∧
    (x.length < 255 → wrap_in_tlv x = 3 :: x.length :: (x ++ [0xFE])) ∧
    (255 ≤ x.length → wrap_in_tlv x = 3 :: 0xFF :: (x ++ [0xFE])) := by
  refine ⟨rfl, ?_, fun h => ?_, fun h => ?_⟩
  · have hc : wrap_in_tlv x =
        (3 :: ((if x.length < 255 then [x.length % 256] else [255]) ++ x)) ++
          [0xFE] := by
      simp [wrap_in_tlv]
    rw [hc, List.getLast?_concat]
  · simp [wrap_in_tlv, if_pos h, Nat.mod_eq_of_lt (by omega : x.length < 256)]
  · simp [wrap_in_tlv, if_neg (by omega : ¬ x.length < 255)]

/-- Witness for `wrap_in_tlv_amended` at the one-byte message `[7]`. -/
theorem wrap_in_tlv_amended_witness :
    (wrap_in_tlv [7]).head? = some 0x03 ∧
    wrap_in_tlv [7] = 3 :: 1 :: ([7] ++ [0xFE]) :=
  ⟨(wrap_in_tlv_amended [7]).1,
   (wrap_in_tlv_amended [7]).2.2.1 (by norm_num)⟩

/-- Claim C5 (code_bug): `parse_ndef_records` is not total on truncated
input.  On the one-byte buffer `[0xD1]` (a record header with nothing after
it) the cursor walk indexes `data[1]` out of bounds, i.e. the Rust function
panics (modelled by `none`) instead of returning the `TruncatedRecord`-style
error the claim requires. -/
theorem parse_ndef_records_truncated_panics :
    parse_ndef_records [0xD1] = none := by
  simp [parse_ndef_records, parse_records_loop, parse_one_record]

set_option maxRecDepth 4000 in
/-- Claim C1, counterexample: the claimed round-trip law fails for UTF-8
texts of 249 bytes or more.  For a 249-byte text the encoded record is 256
bytes long, `wrap_in_tlv` emits the bare length byte `0xFF` (no extended
length), and `decode_ndef_text` then reads a 255-byte message whose declared
payload no longer fits, failing with "Invalid payload structure". -/
theorem text_roundtrip_counterexample :
    utf8Valid (List.replicate 249 97) = true ∧
    decode_ndef_text (wrap_in_tlv (encode_ndef_message
      (List.replicate 249 97))) ≠ Except.ok (List.replicate 249 97) := by
  refine ⟨by decide, ?_⟩
  have h : decode_ndef_text (wrap_in_tlv (encode_ndef_message
      (List.replicate 249 97))) = .error "Invalid payload structure" := by rfl
  rw [h]
  exact fun hcontra => Except.noConfusion hcontra

/-- Claim C1, amended: for every UTF-8 text `s` of at most 248 bytes,
decoding the TLV-wrapped encoding of `s` as a single Text record returns
exactly `s`.  (At 248 bytes the record is exactly 255 bytes and the
round-trip still succeeds because the decoder's short length byte `0xFF`
happens to equal the record length; from 249 bytes on it fails, see
`text_roundtrip_counterexample`.) -/
theorem text_roundtrip_amended (s : List Nat) (hv : utf8Valid s = true)
    (hlen : s.length ≤ 248) :
    decode_ndef_text (wrap_in_tlv (encode_ndef_message s)) = .ok s := by
  have henc : encode_ndef_message s =
      0xD1 :: 1 :: (s.length + 3) :: 0x54 :: 2 :: 0x65 :: 0x6E :: s := by
    simp only [encode_ndef_message, create_text_record_payload,
      List.length_cons]
    rw [Nat.mod_eq_of_lt (by omega)]
  have hwrap : wrap_in_tlv (encode_ndef_message s) =
      3 :: (s.length + 7) ::
        (0xD1 :: 1 :: (s.length + 3) :: 0x54 :: 2 :: 0x65 :: 0x6E ::
          (s ++ [0xFE])) := by
    rw [henc]
    simp only [wrap_in_tlv]
    by_cases hc : (0xD1 :: 1 :: (s.length + 3) :: 0x54 :: 2 :: 0x65 :: 0x6E ::
        s).length < 255
    · rw [if_pos hc]
      simp only [List.length_cons] at hc ⊢
      rw [Nat.mod_eq_of_lt (by omega)]
      simp only [List.cons_append, List.singleton_append, List.cons.injEq,
        List.nil_append]
    · rw [if_neg hc]
      simp only [List.length_cons] at hc
      simp only [List.cons_append, List.singleton_append, List.cons.injEq,
        List.nil_append]
      exact ⟨trivial, by omega, trivial⟩
  rw [hwrap]
  have hfind : List.findIdx? (fun b => b == 3)
      (3 :: (s.length + 7) ::
        (0xD1 :: 1 :: (s.length + 3) :: 0x54 :: 2 :: 0x65 :: 0x6E ::
          (s ++ [0xFE]))) = some 0 := by
    rw [List.findIdx?_cons]
    norm_num
  have hBlen : (3 :: (s.length + 7) ::
      (0xD1 :: 1 :: (s.length + 3) :: 0x54 :: 2 :: 0x65 :: 0x6E ::
        (s ++ [0xFE]))).length = s.length + 10 := by
    simp
  have hBget : (3 :: (s.length + 7) ::
      (0xD1 :: 1 :: (s.length + 3) :: 0x54 :: 2 :: 0x65 :: 0x6E ::
        (s ++ [0xFE]))).getD (0 + 1) 0 = s.length + 7 := rfl
  have hBdrop : (3 :: (s.length + 7) ::
      (0xD1 :: 1 :: (s.length + 3) :: 0x54 :: 2 :: 0x65 :: 0x6E ::
        (s ++ [0xFE]))).drop (0 + 2) =
      0xD1 :: 1 :: (s.length + 3) :: 0x54 :: 2 :: 0x65 :: 0x6E ::
        (s ++ [0xFE]) := rfl
  have htake : (0xD1 :: 1 :: (s.length + 3) :: 0x54 :: 2 :: 0x65 :: 0x6E ::
      (s ++ [0xFE])).take (s.length + 7) =
      0xD1 :: 1 :: (s.length + 3) :: 0x54 :: 2 :: 0x65 :: 0x6E :: s := by
    have hsplit : (0xD1 :: 1 :: (s.length + 3) :: 0x54 :: 2 :: 0x65 :: 0x6E ::
        (s ++ [0xFE])) =
        [0xD1, 1, (s.length + 3), 0x54, 2, 0x65, 0x6E] ++ (s ++ [0xFE]) := by
      simp
    rw [hsplit, List.take_append_eq_append_take]
    have h7 : ([0xD1, 1, (s.length + 3), 0x54, 2, 0x65, 0x6E] :
        List Nat).length = 7 := rfl
    rw [List.take_of_length_le (by rw [h7]; omega), h7,
      show s.length + 7 - 7 = s.length from by omega,
      List.take_append_eq_append_take, List.take_length,
      Nat.sub_self, List.take_zero, List.append_nil]
    simp
  have hM1 : (0xD1 :: 1 :: (s.length + 3) :: 0x54 :: 2 :: 0x65 :: 0x6E ::
      s).getD 1 0 = 1 := rfl
  have hM2 : (0xD1 :: 1 :: (s.length + 3) :: 0x54 :: 2 :: 0x65 :: 0x6E ::
      s).getD 2 0 = s.length + 3 := rfl
  have hMlen : (0xD1 :: 1 :: (s.length + 3) :: 0x54 :: 2 :: 0x65 :: 0x6E ::
      s).length = s.length + 7 := by simp
  have hMempty : (0xD1 :: 1 :: (s.length + 3) :: 0x54 :: 2 :: 0x65 :: 0x6E ::
      s).isEmpty = false := rfl
  have hMdrop : (0xD1 :: 1 :: (s.length + 3) :: 0x54 :: 2 :: 0x65 :: 0x6E ::
      s).drop (3 + 1) = 2 :: 0x65 :: 0x6E :: s := rfl
  have hPtake : (2 :: 0x65 :: 0x6E :: s).take (s.length + 3) =
      2 :: 0x65 :: 0x6E :: s :=
    List.take_of_length_le (by simp)
  have hPempty : (2 :: 0x65 :: 0x6E :: (s : List Nat)).isEmpty = false := rfl
  have hPlen : (2 :: 0x65 :: 0x6E :: (s : List Nat)).length =
      s.length + 3 := by simp
  have hP0 : (2 :: 0x65 :: 0x6E :: (s : List Nat)).getD 0 0 = 2 := rfl
  have hstat : (2 : Nat) &&& 0x3F = 2 := by decide
  have hPdrop : (2 :: 0x65 :: 0x6E :: (s : List Nat)).drop (1 + 2) = s := rfl
  simp only [decode_ndef_text, hfind, hBget, hBdrop, htake, hBlen, hM1, hM2,
    hMlen, hMempty, hMdrop, hPtake, hPempty, hPlen, hP0, hstat, hPdrop,
    Bool.false_eq_true, if_false, hv, if_true]
  rw [if_neg (by omega : ¬ 0 + 1 ≥ s.length + 10),
    if_neg (by omega : ¬ 0 + 2 + (s.length + 7) > s.length + 10),
    if_neg (by omega : ¬ s.length + 7 < 3),
    if_neg (by omega : ¬ 3 + 1 + (s.length + 3) > s.length + 7),
    if_neg (by omega : ¬ 1 + 2 > s.length + 3)]

/-- Witness for `text_roundtrip_amended` at the text `"hello"`. -/
theorem text_roundtrip_amended_witness :
    utf8Valid [104, 101, 108, 108, 111] = true ∧
    [104, 101, 108, 108, 111].length ≤ 248 ∧
    decode_ndef_text (wrap_in_tlv (encode_ndef_message
      [104, 101, 108, 108, 111])) = .ok [104, 101, 108, 108, 111] :=
  ⟨by decide, by decide,
   text_roundtrip_amended [104, 101, 108, 108, 111] (by decide) (by decide)⟩

/-- Claim C10: `encode_single_record_ndef` always sets the SR flag (bit 4 of
the header), declares the payload length as the single byte
`payload.length % 256`, yet appends the entire payload; hence whenever the
constructed payload is 256 bytes or longer the declared payload length
disagrees with the number of payload bytes actually emitted. -/
theorem encode_single_record_sr_and_length
    (content : List Nat) (data_type : NDEFType) (mb me : Bool) :
    (encode_single_record_ndef content data_type mb me).getD 0 0 &&& 0x10 =
      0x10 ∧
    (encode_single_record_ndef content data_type mb me).getD 2 0 =
      (record_payload content data_type).length % 256 ∧
    encode_single_record_ndef content data_type mb me =
      (record_header data_type mb me ::
        ((record_type_string data_type).length % 256) ::
        ((record_payload content data_type).length % 256) ::
        record_type_string data_type) ++ record_payload content data_type ∧
    (256 ≤ (record_payload content data_type).length →
      (encode_single_record_ndef content data_type mb me).getD 2 0 ≠
        (record_payload content data_type).length) := by
  refine ⟨or_and_mask _ _, rfl, by simp [encode_single_record_ndef], ?_⟩
  intro hlen
  have h2 : (encode_single_record_ndef content data_type mb me).getD 2 0 =
      (record_payload content data_type).length % 256 := rfl
  rw [h2]
  have := Nat.mod_lt (record_payload content data_type).length
    (show 0 < 256 by norm_num)
  omega

/-- Witness for `encode_single_record_sr_and_length` at a 256-byte APP
payload: the declared length byte is `0`, not `256`. -/
theorem encode_single_record_sr_and_length_witness :
    256 ≤ (record_payload (List.replicate 256 97) .APP).length ∧
    (encode_single_record_ndef (List.replicate 256 97) .APP true true).getD
      2 0 ≠ (record_payload (List.replicate 256 97) .APP).length :=
  ⟨by simp only [record_payload, List.length_replicate]; norm_num,
   (encode_single_record_sr_and_length (List.replicate 256 97) .APP true
      true).2.2.2
     (by simp only [record_payload, List.length_replicate]; norm_num)⟩

/-- The service-state invariant of claim C6. -/
def StateInv (st : ServiceState) : Prop :=
  st.card_present = false → st.last_data_read = none

/-- Every transition except the crash-recovery tail of the outer loop
preserves the invariant `card_present = false → last_data_read = None`. -/
theorem step_preserves_inv (st : ServiceState) (e : Step)
    (hne : e ≠ Step.recover) (hst : StateInv st) : StateInv (step st e) := by
  cases e <;> simp only [step, stepE] <;> intro hcp
  case estFail =>
    split at hcp <;> simp_all [StateInv]
  case scan connected =>
    cases connected <;> simp_all [StateInv]
  case pnp connected =>
    split at hcp <;> simp_all [StateInv]
  case cmdCheck => exact hst hcp
  case cmdWrite => exact hst hcp
  case insert decoded =>
    by_cases h : st.card_present
    · rw [if_pos h] at hcp ⊢
      exact hst hcp
    · rw [if_neg h] at hcp ⊢
      cases decoded with
      | none => simp_all
      | some text =>
        by_cases hld : st.last_data_read = some text <;> simp [hld] at hcp
  case remove =>
    split at hcp <;> simp_all [StateInv]
  case recover => exact absurd rfl hne

/-- Claim C6, counterexample: after a successful read (`last_data_read` set)
the inner loop can break (`ServiceStopped`/`NoService`) and the recovery
tail clears `card_present` but deliberately keeps `last_data_read`
(nfc_service.rs:200-202), so the reachable state violates
`card_present = false → last_data_read = None`. -/
theorem service_invariant_counterexample :
    (runSteps [.insert (some [104]), .recover]).card_present = false ∧
    (runSteps [.insert (some [104]), .recover]).last_data_read ≠ none := by
  decide

/-- Claim C6, amended: the invariant `card_present = false` implies
`last_data_read = None` holds in every state reachable from the initial
state by any sequence of steps that does not include the inner-loop crash
recovery (which resets `card_present` but keeps `last_data_read`). -/
theorem service_invariant_amended (es : List Step)
    (h : ∀ e ∈ es, e ≠ Step.recover) :
    (runSteps es).card_present = false → (runSteps es).last_data_read = none := by
  suffices haux : ∀ (l : List Step) (st : ServiceState),
      (∀ e ∈ l, e ≠ Step.recover) → StateInv st → StateInv (l.foldl step st) by
    exact haux es ServiceState.new h (fun _ => rfl)
  intro l
  induction l with
  | nil => exact fun st _ hst => hst
  | cons e es ih =>
    intro st hl hst
    exact ih (step st e) (fun x hx => hl x (List.mem_cons_of_mem e hx))
      (step_preserves_inv st e (hl e (List.mem_cons_self e es)) hst)

/-- Witness for `service_invariant_amended` on a concrete recovery-free
trace: insert a card with content, then remove it. -/
theorem service_invariant_amended_witness :
    (runSteps [.insert (some [104]), .remove]).card_present = false ∧
    (runSteps [.insert (some [104]), .remove]).last_data_read = none :=
  ⟨by decide, service_invariant_amended [.insert (some [104]), .remove]
    (by decide) (by decide)⟩

/-- Claim C8: on a successful decode during card-insertion handling (with
no card previously present), `DATA_READ_SUCCESS` is emitted iff the decoded
text differs from `last_data_read`, after which `last_data_read` holds the
decoded text; and since removal clears `last_data_read`, a second insertion
of a card with identical content emits `DATA_READ_SUCCESS` again. -/
theorem read_dedup (st : ServiceState) (t : List Nat)
    (hcp : st.card_present = false) :
    (OutMsg.DATA_READ_SUCCESS t ∈ (stepE st (.insert (some t))).2 ↔
      st.last_data_read ≠ some t) ∧
    (stepE st (.insert (some t))).1.last_data_read = some t ∧
    OutMsg.DATA_READ_SUCCESS t ∈
      (stepE (step (step st (.insert (some t))) .remove)
        (.insert (some t))).2 := by
  by_cases hl : st.last_data_read = some t <;>
    simp_all [stepE, step]

/-- Witness for `read_dedup` from the initial service state. -/
theorem read_dedup_witness :
    (OutMsg.DATA_READ_SUCCESS [104] ∈
        (stepE ServiceState.new (.insert (some [104]))).2 ↔
      ServiceState.new.last_data_read ≠ some [104]) ∧
    (stepE ServiceState.new (.insert (some [104]))).1.last_data_read =
      some [104] ∧
    OutMsg.DATA_READ_SUCCESS [104] ∈
      (stepE (step (step ServiceState.new (.insert (some [104]))) .remove)
        (.insert (some [104]))).2 :=
  read_dedup ServiceState.new [104] rfl

/-- `read_mifare_loop` only ever appends to the accumulated buffer: whatever
blocks remain and however authentication or reads fail, the result extends
the buffer passed in. -/
theorem read_mifare_loop_extends (c : CardM) :
    ∀ (blocks fd : List Nat) (nl : Option Nat),
    ∃ ext, read_mifare_loop c blocks fd nl = fd ++ ext := by
  intro blocks
  induction blocks with
  | nil => exact fun fd nl => ⟨[], by simp [read_mifare_loop]⟩
  | cons b rest ih =>
    intro fd nl
    simp only [read_mifare_loop]
    split
    · exact ⟨[], by simp⟩
    · split
      · exact ⟨[], by simp⟩
      · rename_i data heq
        split
        · split
          · exact ⟨data, rfl⟩
          · obtain ⟨ext, hext⟩ := ih (fd ++ data) _
            exact ⟨data ++ ext, by rw [hext, List.append_assoc]⟩
        · obtain ⟨ext, hext⟩ := ih (fd ++ data) _
          exact ⟨data ++ ext, by rw [hext, List.append_assoc]⟩

/-- Claim C9: `read_mifare` returns an error only when the accumulated
buffer is entirely empty; whenever the very first block read (block 4, after
a successful sector-1 authentication) yields data, any later authentication
or read failure merely stops the loop and the partial buffer — beginning
with that data — is returned as `Ok`. -/
theorem read_mifare_error_only_when_empty (c : CardM) :
    (∀ e, read_mifare c = .error e →
      read_mifare_loop c get_mifare_data_blocks [] none = []) ∧
    (∀ d, c.auth 4 = true → c.read 4 = some d → d ≠ [] →
      ∃ buf, read_mifare c = .ok buf ∧ buf.take d.length = d) := by
  constructor
  · intro e he
    simp only [read_mifare] at he
    split at he
    · exact List.isEmpty_iff.mp (by assumption)
    · exact absurd he (by simp)
  · intro d hauth hread hne
    obtain ⟨rest, hgb⟩ : ∃ rest, get_mifare_data_blocks = 4 :: rest :=
      ⟨_, rfl⟩
    have hfirst : ∃ ext, read_mifare_loop c get_mifare_data_blocks [] none =
        d ++ ext := by
      rw [hgb]
      simp only [read_mifare_loop]
      rw [if_neg (by simp [hauth]), hread]
      simp only [List.nil_append]
      split
      · split
        · exact ⟨[], by simp⟩
        · obtain ⟨ext, hext⟩ := read_mifare_loop_extends c _ d _
          exact ⟨ext, hext⟩
      · obtain ⟨ext, hext⟩ := read_mifare_loop_extends c _ d _
        exact ⟨ext, hext⟩
    obtain ⟨ext, hext⟩ := hfirst
    have hemp : (d ++ ext).isEmpty = false := by
      cases d with
      | nil => exact absurd rfl hne
      | cons a t => rfl
    refine ⟨d ++ ext, ?_, ?_⟩
    · simp only [read_mifare]
      rw [hext, hemp]
      simp
    · rw [List.take_append_eq_append_take, List.take_length, Nat.sub_self,
        List.take_zero, List.append_nil]

/-- Witness for `read_mifare_error_only_when_empty`: a card that
authenticates and reads blocks 4-6 (16 bytes of `7`s each) and then fails
authentication at block 8; the partial 48-byte buffer is returned as `Ok`. -/
theorem read_mifare_error_only_when_empty_witness :
    ∃ buf, read_mifare
        ⟨fun b => b == 4,
         fun b => if b ≤ 6 then some (List.replicate 16 7) else none⟩ =
        .ok buf ∧ buf.take (List.replicate 16 7).length = List.replicate 16 7 :=
  (read_mifare_error_only_when_empty
    ⟨fun b => b == 4,
     fun b => if b ≤ 6 then some (List.replicate 16 7) else none⟩).2
    (List.replicate 16 7) rfl (by decide) (by decide)

/-- Behaviour of the `write_mifare` loop when every authentication and
write succeeds: it returns the issued calls, one per 16-byte chunk of the
remaining data, at blocks from `current_block` on that are never trailers
(`block % 4 = 3`), each carrying exactly 16 bytes. -/
theorem write_mifare_loop_spec (c : WCardM) (data : List Nat)
    (hA : ∀ b, c.auth b = true) (hW : ∀ b ch, c.write b ch = true)
    (offset cb : Nat) :
    ∃ calls, write_mifare_loop c data offset cb = .ok calls ∧
      calls.length = (data.length - offset + 15) / 16 ∧
      ∀ p ∈ calls, cb ≤ p.1 ∧ p.1 % 4 ≠ 3 ∧ p.2.length = 16 := by
  induction offset, cb using write_mifare_loop.induct c data
  case case1 =>
    rename_i offset cb hlt hskip ih
    obtain ⟨calls, hok, hlen, hp⟩ := ih
    refine ⟨calls, ?_, hlen, fun p hp2 => ?_⟩
    · rw [write_mifare_loop.eq_def, if_pos hlt, dif_pos hskip]
      exact hok
    · obtain ⟨h1, h2, h3⟩ := hp p hp2
      exact ⟨by omega, h2, h3⟩
  case case2 =>
    rename_i offset cb hlt hskip hfail
    exact absurd hfail (by simp [hA])
  case case3 =>
    rename_i offset cb hlt hskip hnauth hwrite calls hok ih
    obtain ⟨calls2, hok2, hlen2, hp2⟩ := ih
    refine ⟨(cb, write_chunk data offset) :: calls2, ?_, ?_, ?_⟩
    · rw [write_mifare_loop.eq_def, if_pos hlt, dif_neg hskip,
        if_neg hnauth, if_pos hwrite, hok2]
    · simp only [List.length_cons, hlen2]
      omega
    · intro p hp3
      rcases List.mem_cons.mp hp3 with h | h
      · subst h
        refine ⟨le_refl _, by omega, ?_⟩
        simp only [write_chunk, List.length_append, List.length_take,
          List.length_drop, List.length_replicate]
        omega
      · obtain ⟨h1, h2, h3⟩ := hp2 p h
        exact ⟨by omega, h2, h3⟩
  case case4 =>
    rename_i offset cb hlt hskip hnauth hwrite e herr ih
    obtain ⟨calls2, hok2, _, _⟩ := ih
    rw [hok2] at herr
    exact absurd herr (by simp)
  case case5 =>
    rename_i offset cb hlt hskip hnauth hwfalse
    exact absurd (hW _ _) hwfalse
  case case6 =>
    rename_i offset cb hge
    refine ⟨[], ?_, by simp; omega, by simp⟩
    rw [write_mifare_loop.eq_def, if_neg hge]

/-- Claim C7: for data of length `N` with `0 < N ≤ 720`, when every
authentication and write succeeds, `write_mifare` issues exactly `⌈N/16⌉`
`update_binary` calls of 16 bytes each (the chunks are the zero-padded
16-byte slices `write_chunk`), starting at block 4, and no call targets a
sector-trailer block (`block % 4 = 3`) or any block of sector 0
(blocks 0-3). -/
theorem write_mifare_block_discipline (c : WCardM) (data : List Nat)
    (hA : ∀ b, c.auth b = true) (hW : ∀ b ch, c.write b ch = true)
    (h1 : 0 < data.length) (h2 : data.length ≤ 720) :
    ∃ calls, write_mifare c data = .ok calls ∧
      calls.length = (data.length + 15) / 16 ∧
      calls.head?.map Prod.fst = some 4 ∧
      ∀ p ∈ calls, 3 < p.1 ∧ p.1 % 4 ≠ 3 ∧ p.2.length = 16 := by
  obtain ⟨calls2, hok2, hlen2, hp2⟩ := write_mifare_loop_spec c data hA hW 16 5
  refine ⟨(4, write_chunk data 0) :: calls2, ?_, ?_, rfl, ?_⟩
  · simp only [write_mifare]
    rw [write_mifare_loop.eq_def, if_pos h1, dif_neg (by omega),
      if_neg (by simp [hA]), if_pos (hW _ _), hok2]
  · simp only [List.length_cons, hlen2]
    omega
  · intro p hp3
    rcases List.mem_cons.mp hp3 with h | h
    · subst h
      refine ⟨by omega, by omega, ?_⟩
      simp only [write_chunk, List.length_append, List.length_take,
        List.length_drop, List.length_replicate]
      omega
    · obtain ⟨hp1, hp2', hp3'⟩ := hp2 p h
      exact ⟨by omega, hp2', hp3'⟩

/-- Witness for `write_mifare_block_discipline`: 20 bytes on an
always-succeeding card take `⌈20/16⌉ = 2` block writes starting at block 4,
avoiding trailers and sector 0. -/
theorem write_mifare_block_discipline_witness :
    ∃ calls, write_mifare ⟨fun _ => true, fun _ _ => true⟩
        (List.replicate 20 1) = .ok calls ∧
      calls.length = ((List.replicate 20 1 : List Nat).length + 15) / 16 ∧
      calls.head?.map Prod.fst = some 4 ∧
      ∀ p ∈ calls, 3 < p.1 ∧ p.1 % 4 ≠ 3 ∧ p.2.length = 16 :=
  write_mifare_block_discipline ⟨fun _ => true, fun _ _ => true⟩
    (List.replicate 20 1) (fun _ => rfl) (fun _ _ => rfl)
    (by simp) (by simp)

/-- Under uniform success (every sector authenticates, every block read
returns 16 bytes), the `read_mifare` loop with a known NDEF length `N` keeps
reading 16-byte blocks until the accumulated buffer reaches `N + 3` bytes
(or the block list runs out). -/
theorem read_loop_len (c : CardM) (N : Nat) :
    ∀ (blocks : List Nat) (fd : List Nat),
    (∀ b ∈ blocks, b % 4 = 0 → c.auth b = true) →
    (∀ b ∈ blocks, ∃ d, c.read b = some d ∧ d.length = 16) →
    ¬ N + 3 ≤ fd.length →
    (read_mifare_loop c blocks fd (some N)).length =
      fd.length + 16 * min blocks.length ((N + 3 - fd.length + 15) / 16) := by
  intro blocks
  induction blocks with
  | nil =>
    intro fd _ _ _
    simp [read_mifare_loop]
  | cons b rest ih =>
    intro fd hauth hread hfd
    obtain ⟨d, hd, hdlen⟩ := hread b (List.mem_cons_self b rest)
    simp only [read_mifare_loop]
    rw [if_neg (fun h => h.2 (hauth b (List.mem_cons_self b rest) h.1)), hd]
    simp only [Option.isNone_some, Bool.false_eq_true, if_false]
    split
    · rename_i hstop
      simp only [List.length_append, hdlen] at hstop ⊢
      simp only [List.length_cons]
      omega
    · rename_i hcont
      simp only [List.length_append, hdlen] at hcont
      rw [ih (fd ++ d)
        (fun x hx => hauth x (List.mem_cons_of_mem b hx))
        (fun x hx => hread x (List.mem_cons_of_mem b hx))
        (by simp [hdlen]; omega)]
      simp only [List.length_append, hdlen, List.length_cons]
      omega

/-- Claim C3, counterexample: a card whose block-4 read places the TLV tag
`0x03` at offset 14 with declared length `N = 10`.  The claim's stopping
rule requires reading until the buffer holds
`tlv-offset + 2 + N + 1 = 27` bytes, but the source compares against
`len + 3 = 13` only (`cards.rs:80`), so it stops after the first 16-byte
block even though further blocks are readable. -/
theorem read_mifare_stop_counterexample :
    read_mifare ⟨fun _ => true, fun b =>
        if b = 4 then some [0, 0, 0, 0, 0, 0, 0, 0, 0, 0, 0, 0, 0, 0, 3, 10]
        else some (List.replicate 16 0)⟩ =
      .ok [0, 0, 0, 0, 0, 0, 0, 0, 0, 0, 0, 0, 0, 0, 3, 10] ∧
    ([0, 0, 0, 0, 0, 0, 0, 0, 0, 0, 0, 0, 0, 0, 3, 10] : List Nat).length <
      14 + 2 + 10 + 1 := by
  constructor
  · rfl
  · decide

/-- Claim C3, amended: on a card where every sector authenticates and every
block read returns 16 bytes, once the TLV tag `0x03` has been located in the
first block at offset `pos` with length byte `N`, reading stops exactly when
the accumulated buffer length reaches `N + 3` bytes — the tag's offset is
not added — i.e. the returned buffer holds `min (16⌈(N+3)/16⌉) 720` bytes.
This agrees with the claim's bound `tlv-offset + 2 + N + 1` only when the
tag sits at offset 0. -/
theorem read_mifare_stop_amended (c : CardM) (db : Nat → List Nat) (pos : Nat)
    (hauth : ∀ b, c.auth b = true)
    (hread : ∀ b, c.read b = some (db b))
    (hlen : ∀ b, (db b).length = 16)
    (hfind : (db 4).findIdx? (fun x => x == 3) = some pos)
    (hpos : pos + 1 < 16) :
    ∃ buf, read_mifare c = .ok buf ∧
      buf.length = min (16 * (((db 4).getD (pos + 1) 0 + 3 + 15) / 16)) 720 := by
  obtain ⟨rest, hgb⟩ : ∃ rest, get_mifare_data_blocks = 4 :: rest := ⟨_, rfl⟩
  have hrl : rest.length = 44 := by
    have h45 : get_mifare_data_blocks.length = 45 := rfl
    have hc45 := congrArg List.length hgb
    rw [h45] at hc45
    simp at hc45
    omega
  have hrauth : ∀ b ∈ rest, b % 4 = 0 → c.auth b = true :=
    fun b _ _ => hauth b
  have hrread : ∀ b ∈ rest, ∃ d, c.read b = some d ∧ d.length = 16 :=
    fun b _ => ⟨db b, hread b, hlen b⟩
  have hstep : read_mifare_loop c get_mifare_data_blocks [] none =
      if (db 4).getD (pos + 1) 0 + 3 ≤ (db 4).length then db 4
      else read_mifare_loop c rest (db 4) (some ((db 4).getD (pos + 1) 0)) := by
    rw [hgb]
    simp only [read_mifare_loop]
    rw [if_neg (fun h => h.2 (hauth 4)), hread 4]
    simp only [List.nil_append, Option.isNone_none, if_true, hfind]
    rw [if_pos (by rw [hlen 4]; exact hpos)]
  have hemp : (read_mifare_loop c get_mifare_data_blocks [] none).isEmpty =
      false := by
    rw [hstep]
    by_cases hc : (db 4).getD (pos + 1) 0 + 3 ≤ (db 4).length
    · rw [if_pos hc]
      have h16 := hlen 4
      cases hdb : db 4 with
      | nil => rw [hdb] at h16; simp at h16
      | cons a t => rfl
    · rw [if_neg hc]
      obtain ⟨ext, hext⟩ := read_mifare_loop_extends c rest (db 4) _
      rw [hext]
      have h16 := hlen 4
      cases hdb : db 4 with
      | nil => rw [hdb] at h16; simp at h16
      | cons a t => rfl
  refine ⟨read_mifare_loop c get_mifare_data_blocks [] none, ?_, ?_⟩
  · simp only [read_mifare]
    rw [hemp]
    simp
  · rw [hstep]
    by_cases hc : (db 4).getD (pos + 1) 0 + 3 ≤ (db 4).length
    · rw [if_pos hc, hlen 4]
      rw [hlen 4] at hc
      omega
    · rw [if_neg hc]
      rw [read_loop_len c _ rest (db 4) hrauth hrread hc]
      rw [hlen 4, hrl]
      rw [hlen 4] at hc
      omega

/-- Witness for `read_mifare_stop_amended`: every block reads
`[3, 5, 0, ..., 0]` (tag at offset 0, `N = 5`), so the buffer stops at
`min (16⌈8/16⌉) 720 = 16` bytes. -/
theorem read_mifare_stop_amended_witness :
    ∃ buf, read_mifare
        ⟨fun _ => true,
         fun _ => some [3, 5, 0, 0, 0, 0, 0, 0, 0, 0, 0, 0, 0, 0, 0, 0]⟩ =
        .ok buf ∧
      buf.length = min (16 *
        ((([3, 5, 0, 0, 0, 0, 0, 0, 0, 0, 0, 0, 0, 0, 0, 0] :
          List Nat).getD (0 + 1) 0 + 3 + 15) / 16)) 720 :=
  read_mifare_stop_amended
    ⟨fun _ => true,
     fun _ => some [3, 5, 0, 0, 0, 0, 0, 0, 0, 0, 0, 0, 0, 0, 0, 0]⟩
    (fun _ => [3, 5, 0, 0, 0, 0, 0, 0, 0, 0, 0, 0, 0, 0, 0, 0]) 0
    (fun _ => rfl) (fun _ => rfl) (fun _ => rfl) (by decide) (by decide)

end NfcRust
